import Mathlib

/-
  Verification of the Corpus2DNALLM corpus-preparation pipeline.

  Shallow embedding of the decision logic of the repository:
    * 1_Prepare_corpus.py   (GenomeObj: split_sequence, get_all_HardMask,
      get_all_UnMask, get_SplitHardMask, get_SplitUnMask, judge_and_generate, main)
    * src/corpus2dnallm/corpus_prep.py (process_both_types, process_unmasked_only,
      process_unmasked_genome, process_masked_genome, find_genome_file)
    * 0_Prepare_GenomeSizeFile.py / src/corpus2dnallm/genome_size.py (fasta_stats)
    * scr/3_generate_tokenizer_config.py (update_tokenizer_files vocab construction)

  Conventions:
    * Python strings are List Char; machine integers are Nat/Int; Python floats
      produced by exact-in-double computations are modelled as exact rationals.
    * Pseudo-randomness is passed explicitly: random.randint(0, 1) is a Bool
      oracle (true models the draw 0, i.e. the "take max_length" branch), and
      randint(min, max) is modelled as min + r % (max - min + 1) for an
      arbitrary oracle value r, which ranges over exactly [min, max].
    * Python exceptions are an explicit error type; fallible code returns Except.
-/

set_option autoImplicit false

namespace Corpus2DNALLM

/-- Python exceptions that the modelled code can raise. -/
inductive PyErr where
  | indexError
  | typeError
  | zeroDivisionError
  | attributeError
deriving DecidableEq

/-! ## GenomeObj.split_sequence (1_Prepare_corpus.py lines 159-190) -/

/-- One character is in the accepted alphabet: the source checks
`char not in ['A', 'C', 'G', 'T', 'N']` to build `invalid_base`. -/
def isACGTN (c : Char) : Bool :=
  c == 'A' || c == 'C' || c == 'G' || c == 'T' || c == 'N'

/-- The acceptance test applied to a candidate chunk `subseq`
(lines 178-188): length at least `min_length`, no invalid base, and
N-fraction at most 0.2.  `N_count / len(subseq) > 0.2` over exact arithmetic
is `5 * N_count > len`; for chunk lengths below 2^51 the Python float
comparison agrees with the exact one. -/
def chunkAccept (min_length : Nat) (subseq : List Char) : Bool :=
  decide (min_length ≤ subseq.length) && subseq.all isACGTN &&
    decide (5 * subseq.count 'N' ≤ subseq.length)

/-- The cursor advance of one loop iteration of `split_sequence`:
on `coin.1 = true` (randint(0,1) drew 0) the code takes `max_length`
characters; otherwise it takes `sublen = randint(min_length, max_length)`
characters, modelled as `min_length + coin.2 % (max_length - min_length + 1)`. -/
def stepLen (min_length max_length : Nat) (coin : Bool × Nat) : Nat :=
  if coin.1 then max_length
  else min_length + coin.2 % (max_length - min_length + 1)

/-- The `while s < n` loop of `split_sequence`.  `oracle i` supplies the random
draws of iteration `i`; `rest` is the suffix `sequence[s:]`.  The chunk taken is
`rest.take k` whether or not it is accepted, and the cursor always advances by
`k` (`s += max_length` resp. `s += sublen`).  `fuel` bounds the number of
iterations; `fuel = rest.length` suffices whenever `1 ≤ min_length` because
every iteration consumes at least one character (proved below), so the fuel
case is unreachable there.  (For `min_length = 0` the Python loop can divide
by zero or fail to advance; the claims only concern `0 < min_length`.) -/
def split_go (oracle : Nat → Bool × Nat) (min_length max_length : Nat) :
    Nat → Nat → List Char → List (List Char)
  | 0, _, _ => []
  | fuel + 1, i, rest =>
    if rest.isEmpty then []
    else
      let k := stepLen min_length max_length (oracle i)
      let subseq := rest.take k
      let tail := split_go oracle min_length max_length fuel (i + 1) (rest.drop k)
      if chunkAccept min_length subseq then subseq :: tail else tail

/-- `GenomeObj.split_sequence(sequence, min_length, max_length)`. -/
def split_sequence (oracle : Nat → Bool × Nat) (min_length max_length : Nat)
    (sequence : List Char) : List (List Char) :=
  split_go oracle min_length max_length sequence.length 0 sequence

/-- The trace of the cursor `s`: position after `n` loop iterations. -/
def cursorAfter (oracle : Nat → Bool × Nat) (min_length max_length : Nat) : Nat → Nat
  | 0 => 0
  | n + 1 => cursorAfter oracle min_length max_length n +
      stepLen min_length max_length (oracle n)

/-- The trace of the unscanned suffix `sequence[s:]` after `n` loop iterations. -/
def restAfter (oracle : Nat → Bool × Nat) (min_length max_length : Nat)
    (sequence : List Char) : Nat → List Char
  | 0 => sequence
  | n + 1 => (restAfter oracle min_length max_length sequence n).drop
      (stepLen min_length max_length (oracle n))

/-! ## Reservoir sampling loop of get_SplitHardMask / get_SplitUnMask
   (1_Prepare_corpus.py lines 228-265 and 268-307) -/

/-- Total number of characters in a list of chunks. -/
def totalLen (l : List (List Char)) : Nat := (l.map List.length).sum

/-- The `while sllength < total_len` sampling loop shared by
`get_SplitHardMask` and `get_SplitUnMask`.  `randomlist` lists candidate
indices in the order Python pops them (`randomlist.pop()` pops from the tail
of the shuffled array, so this parameter is the Python list reversed — still
an arbitrary permutation).  `used` is the set of already-used indices, `sllength`
the running total, `outlist` the selected chunks in selection order.
`seqlist[a]` is modelled as `seqlist.getD a []`; the indices produced by
`np.arange(len(seqlist))` are always in range.  Popping from an exhausted list
raises IndexError. -/
def sampleGo (seqlist : List (List Char)) (total_len : Nat) :
    List Nat → List Nat → Nat → List (List Char) → Except PyErr (List (List Char))
  | [], _, sllength, outlist =>
    if total_len ≤ sllength then .ok outlist else .error .indexError
  | a :: rest, used, sllength, outlist =>
    if total_len ≤ sllength then .ok outlist
    else if a ∈ used then sampleGo seqlist total_len rest used sllength outlist
    else
      sampleGo seqlist total_len rest (a :: used)
        (sllength + (seqlist.getD a []).length) (outlist ++ [seqlist.getD a []])

/-- The sampling phase of `get_SplitHardMask` / `get_SplitUnMask`, starting
from an empty `used` set, zero length and empty output. -/
def sample (seqlist : List (List Char)) (randomlist : List Nat) (total_len : Nat) :
    Except PyErr (List (List Char)) :=
  sampleGo seqlist total_len randomlist [] 0 []

/-! ## Corpus generation of GenomeObj (1_Prepare_corpus.py) -/

/-- Segments obtained from one unmasked sequence record: the source uppercases
the sequence and replaces every run of at least 10 consecutive N by a line
break, then splits on the breaks (`re.sub("N"*10 + "+", "\x5cn", sequence)`
followed by `.split("\x5cn")`).  `pend` counts the pending run of N just read
and `acc` is the current segment, reversed. -/
def collapseGo : List Char → Nat → List Char → List (List Char)
  | [], pend, acc =>
    if 10 ≤ pend then [acc.reverse, []]
    else [(List.replicate pend 'N' ++ acc).reverse]
  | c :: rest, pend, acc =>
    if c = 'N' then collapseGo rest (pend + 1) acc
    else if 10 ≤ pend then acc.reverse :: collapseGo rest 0 [c]
    else collapseGo rest 0 (c :: (List.replicate pend 'N' ++ acc))

/-- `re.sub("N"*10 + "+", "\x5cn", s).split("\x5cn")`. -/
def collapseNRuns (s : List Char) : List (List Char) := collapseGo s 0 []

/-- `GenomeObj.get_all_HardMask`: every line of the pre-split masked file
(already stripped of its newline) is passed to `split_sequence` with the
default `min_length = 5`.  `oracle j` supplies the randomness for line `j`. -/
def get_all_HardMask (oracle : Nat → Nat → Bool × Nat) (max_length : Nat)
    (fileLines : List (List Char)) : List (List Char) :=
  fileLines.enum.flatMap (fun p => split_sequence (oracle p.1) 5 max_length p.2)

/-- The candidate chunks built by `get_all_UnMask` / `get_SplitUnMask`:
each FASTA record is uppercased, broken on runs of at least 10 N, and each
resulting segment is passed to `split_sequence` with `min_length = 5`. -/
def unMaskSegments (seqs : List (List Char)) : List (List Char) :=
  seqs.flatMap (fun s => collapseNRuns (s.map Char.toUpper))

/-- `GenomeObj.get_all_UnMask`. -/
def get_all_UnMask (oracle : Nat → Nat → Bool × Nat) (max_length : Nat)
    (seqs : List (List Char)) : List (List Char) :=
  (unMaskSegments seqs).enum.flatMap
    (fun p => split_sequence (oracle p.1) 5 max_length p.2)

/-- `GenomeObj.get_SplitHardMask(total_len, max_length)`: build all chunks of
the masked file, then run the sampling loop over a random permutation. -/
def get_SplitHardMask (oracle : Nat → Nat → Bool × Nat) (max_length : Nat)
    (fileLines : List (List Char)) (randomlist : List Nat) (total_len : Nat) :
    Except PyErr (List (List Char)) :=
  sample (get_all_HardMask oracle max_length fileLines) randomlist total_len

/-- `GenomeObj.get_SplitUnMask(total_len, max_length)`. -/
def get_SplitUnMask (oracle : Nat → Nat → Bool × Nat) (max_length : Nat)
    (seqs : List (List Char)) (randomlist : List Nat) (total_len : Nat) :
    Except PyErr (List (List Char)) :=
  sample (get_all_UnMask oracle max_length seqs) randomlist total_len

/-! ## GenomeObj budget planning (judge_and_generate, lines 130-156) -/

/-- `self.SplitMask_genome_size`: a float (MB) when the genome has type
`both`, and the string `'none'` otherwise (lines 125-127). -/
inductive SplitMaskSize where
  | noneStr
  | mb (size : ℚ)

/-- What `judge_and_generate` draws from one source. -/
inductive Draw where
  | allSeq
  | budget (total_len : ℤ)
deriving DecidableEq

/-- The per-source decision of `judge_and_generate`: which masked draw (if
any) and which unmasked draw are requested. -/
structure ScriptPlan where
  masked : Option Draw
  unmasked : Draw
deriving DecidableEq

/-- The budget decision of `GenomeObj.judge_and_generate(split_size, max_length)`.
`unMaskSizeMB` is `self.UnMask_genome_size` (MB, exact rational for the float);
`split_size` is the integer `--GenomeSplit` argument.
`max_genome_size = int(split_size / 2 * 1e6)` is the floor of the exact value.
When the genome has no masked variant, `self.SplitMask_genome_size` is the
string `'none'` and the comparison `'none' >= split_size / 2` raises a
TypeError in Python 3. -/
def judge_and_generate_plan (unMaskSizeMB : ℚ) (maskSize : SplitMaskSize)
    (split_size : ℤ) : Except PyErr ScriptPlan :=
  if unMaskSizeMB ≤ (split_size : ℚ) then .ok ⟨none, .allSeq⟩
  else
    let max_genome_size : ℤ := ⌊(split_size : ℚ) / 2 * 1000000⌋
    match maskSize with
    | .noneStr => .error .typeError
    | .mb m =>
      if (split_size : ℚ) / 2 ≤ m then
        .ok ⟨some (.budget max_genome_size), .budget max_genome_size⟩
      else
        .ok ⟨some .allSeq, .budget max_genome_size⟩

/-- `GenomeObj.judge_and_generate` at the sequence level: the list of chunks
it returns (or the Python exception it raises).  Mirrors the three branches of
lines 136-156; in the sampled branches the left call runs first, as in Python.
The Nat budget passed to the sampling loop is `max_genome_size.toNat`
(a negative `total_len` makes the Python loop exit immediately, like 0). -/
def judge_and_generate (unMaskSizeMB : ℚ) (maskSize : SplitMaskSize)
    (split_size : ℤ) (max_length : Nat)
    (oracleU oracleH : Nat → Nat → Bool × Nat)
    (unmaskSeqs maskLines : List (List Char))
    (rlH rlU : List Nat) : Except PyErr (List (List Char)) :=
  if unMaskSizeMB ≤ (split_size : ℚ) then
    .ok (get_all_UnMask oracleU max_length unmaskSeqs)
  else
    let max_genome_size : ℤ := ⌊(split_size : ℚ) / 2 * 1000000⌋
    match maskSize with
    | .noneStr => .error .typeError
    | .mb m =>
      if (split_size : ℚ) / 2 ≤ m then do
        let hm ← get_SplitHardMask oracleH max_length maskLines rlH max_genome_size.toNat
        let um ← get_SplitUnMask oracleU max_length unmaskSeqs rlU max_genome_size.toNat
        .ok (hm ++ um)
      else do
        let um ← get_SplitUnMask oracleU max_length unmaskSeqs rlU max_genome_size.toNat
        .ok (get_all_HardMask oracleH max_length maskLines ++ um)

/-! ## File resolution (1_Prepare_corpus.py findfiles / GenomeObj.__init__,
   corpus_prep.py find_genome_file / find_split_mask_file) -/

/-- Matching a filename against the shell pattern `name*suffix`
(`*` matches any run of characters): the file decomposes as
`name ++ middle ++ suffix`.  Genome names contain no shell metacharacters.
Filenames are character lists. -/
def globNameSuffix (name suffix file : List Char) : Bool :=
  name.isPrefixOf file && suffix.isSuffixOf (file.drop name.length)

/-- `findfiles(which, where)` of 1_Prepare_corpus.py matches case-insensitively
(`re.compile(fnmatch.translate(which), re.IGNORECASE)`); returns the matching
directory entries in listing order. -/
def findfiles (name suffix : List Char) (dirFiles : List (List Char)) :
    List (List Char) :=
  dirFiles.filter (fun f =>
    globNameSuffix (name.map Char.toLower) (suffix.map Char.toLower)
      (f.map Char.toLower))

/-- `GenomeObj.__init__` unmasked resolution (lines 78-87): the first pattern
in `["fa", "fasta", "fa.gz", "fasta.gz"]` with a nonempty match wins, and the
first matching file is taken. -/
def script_resolve_unmask (dirFiles : List (List Char)) (name : List Char) :
    Option (List Char) :=
  [['f', 'a'], ['f', 'a', 's', 't', 'a'], ['f', 'a', '.', 'g', 'z'],
      ['f', 'a', 's', 't', 'a', '.', 'g', 'z']].findSome?
    (fun pat => (findfiles name pat dirFiles).head?)

/-- `GenomeObj.__init__` masked resolution for a `both` genome (line 108):
`findfiles(f"{genome_name}*sp.txt", SplitMaskDir)`. -/
def script_resolve_splitmask (dirFiles : List (List Char)) (name : List Char) :
    Option (List Char) :=
  (findfiles name ['s', 'p', '.', 't', 'x', 't'] dirFiles).head?

/-- The fate of one genome in the top-level script.  `GenomeObj.__init__`
raises IndexError (`SplitMaskPath[0]` on an empty match list, line 110) when a
`both` genome has no `*sp.txt` file; a missing unmasked file leaves
`self.UnMask_genome_file_path` unset, so the sequence getters later raise
AttributeError.  `main` (lines 325-339) catches neither, so the exception
propagates. -/
def script_process_genome (unmaskFiles splitMaskFiles : List (List Char))
    (name gtype : List Char) : Except PyErr (List Char) :=
  if gtype = ['b', 'o', 't', 'h'] &&
      (script_resolve_splitmask splitMaskFiles name).isNone then
    .error .indexError
  else if (script_resolve_unmask unmaskFiles name).isNone then
    .error .attributeError
  else .ok name

/-- The genome loop of `main` in 1_Prepare_corpus.py: genomes are processed in
table order and the first uncaught exception aborts the whole run.  Returns
the names processed. -/
def script_main_loop (unmaskFiles splitMaskFiles : List (List Char)) :
    List (List Char × List Char) → Except PyErr (List (List Char))
  | [] => .ok []
  | g :: rest => do
    let n ← script_process_genome unmaskFiles splitMaskFiles g.1 g.2
    let ns ← script_main_loop unmaskFiles splitMaskFiles rest
    .ok (n :: ns)

/-- Python `str.title()` (ASCII): the first letter of each alphabetic run is
uppercased, the rest lowercased.  The flag records whether the previous
character was alphabetic. -/
def pyTitleGo : Bool → List Char → List Char
  | _, [] => []
  | prevAlpha, c :: rest =>
    (if c.isAlpha then (if prevAlpha then c.toLower else c.toUpper) else c) ::
      pyTitleGo c.isAlpha rest

/-- Python `str.title()`. -/
def pyTitle (s : List Char) : List Char := pyTitleGo false s

/-- The case variants tried by `find_genome_file` / `find_split_mask_file`
of corpus_prep.py, in order. -/
def nameVariants (name : List Char) : List (List Char) :=
  [name, name.map Char.toLower, pyTitle name, name.map Char.toUpper]

/-- `corpus_prep.find_genome_file(directory, genome_name)`: case-sensitive
glob of `name + pattern` for each case variant and each pattern in
`["*.fa", "*.fasta", "*.fa.gz", "*.fasta.gz"]`; first hit wins (glob results
taken in directory-listing order). -/
def find_genome_file (dirFiles : List (List Char)) (name : List Char) :
    Option (List Char) :=
  (nameVariants name).findSome? (fun v =>
    [['.', 'f', 'a'], ['.', 'f', 'a', 's', 't', 'a'],
        ['.', 'f', 'a', '.', 'g', 'z'],
        ['.', 'f', 'a', 's', 't', 'a', '.', 'g', 'z']].findSome? (fun suf =>
      (dirFiles.filter (globNameSuffix v suf)).head?))

/-- `corpus_prep.find_split_mask_file(split_mask_dir, genome_name)`:
pattern `name*_sp.txt` for each case variant. -/
def find_split_mask_file (dirFiles : List (List Char)) (name : List Char) :
    Option (List Char) :=
  (nameVariants name).findSome? (fun v =>
    (dirFiles.filter (globNameSuffix v ['_', 's', 'p', '.', 't', 'x', 't'])).head?)

/-! ## corpus_prep.py orchestration -/

/-- The fate of one genome in `corpus_prep.prepare_genome_corpus`. -/
inductive Outcome where
  | processed (name : List Char)
  | warnedMissing (name : List Char)
deriving DecidableEq

/-- `corpus_prep.process_unmasked_genome` (lines 177-214) as seen by the
orchestration: when `find_genome_file` returns `None` it prints a warning and
returns 0 without raising; otherwise the genome is processed. -/
def process_unmasked_genome_outcome (dirFiles : List (List Char))
    (name : List Char) : Outcome :=
  match find_genome_file dirFiles name with
  | none => .warnedMissing name
  | some _ => .processed name

/-- The genome loop of `corpus_prep.prepare_genome_corpus` projected onto the
file-resolution outcomes: every branch of the per-genome dispatch ends in
`process_unmasked_genome`, genomes are independent, and nothing aborts. -/
def prepare_corpus_outcomes (dirFiles : List (List Char))
    (genomes : List (List Char)) : List Outcome :=
  genomes.map (process_unmasked_genome_outcome dirFiles)

/-- A byte cap used by corpus_prep.py: either no cap (`max_mb=None`, the size
check compares against `float('inf')`) or a cap in (binary) megabytes. -/
inductive ModDraw where
  | unlimited
  | capMB (mb : ℚ)
deriving DecidableEq

/-- The per-source decision of the corpus_prep.py planners. `maskedDraw = none`
means the masked source is not drawn from at all. -/
structure ModulePlan where
  maskedDraw : Option ModDraw
  unmaskedDraw : ModDraw
deriving DecidableEq

/-- `corpus_prep.process_both_types` (lines 62-93): below the threshold the
whole unmasked genome is used; otherwise the masked file (if found) is
processed with the hard-coded cap `250` MB and the unmasked file with the
hard-coded cap `250` MB.  `masked_found` is whether `find_split_mask_file`
succeeded. -/
def process_both_types_plan (genome_size_mb genome_split_size : ℚ)
    (masked_found : Bool) : ModulePlan :=
  if genome_size_mb < genome_split_size then ⟨none, .unlimited⟩
  else ⟨if masked_found then some (.capMB 250) else none, .capMB 250⟩

/-- `corpus_prep.process_unmasked_only` (lines 96-117): a genome without a
masked variant never draws masked bytes; large genomes are capped at
`genome_split_size` MB. -/
def process_unmasked_only_plan (genome_size_mb genome_split_size : ℚ) : ModulePlan :=
  if genome_size_mb < genome_split_size then ⟨none, .unlimited⟩
  else ⟨none, .capMB genome_split_size⟩

/-- The slicing loop of `corpus_prep.process_unmasked_genome` over one
uppercased sequence (lines 204-212): fixed-stride slices of `max_length`,
a slice is written iff its length is at least 100, the running character
count is checked against the cap after every slice, and reaching the cap
returns from the whole function.  Returns (lines written, new total, stopped).
`fuel = remaining.length` suffices since `max_length ≥ 1` (Python `range`
would raise on step 0). -/
def pu_go (max_length : Nat) (max_chars : Option Nat) :
    Nat → List Char → Nat → List (List Char) × Nat × Bool
  | _, [], total => ([], total, false)
  | 0, _ :: _, total => ([], total, false)
  | fuel + 1, remaining, total =>
    let sub := remaining.take max_length
    let wrote := decide (100 ≤ sub.length)
    let total' := if wrote then total + sub.length else total
    let line : List (List Char) := if wrote then [sub] else []
    let stop : Bool := match max_chars with
      | some m => decide (m ≤ total')
      | none => false
    if stop then (line, total', true)
    else
      let r := pu_go max_length max_chars fuel (remaining.drop max_length) total'
      (line ++ r.1, r.2.1, r.2.2)

/-- The lines `corpus_prep.process_unmasked_genome` writes to the corpus file:
each record is uppercased (`str(seq.seq).upper()`) and sliced; no alphabet
filter is applied.  The cap, once reached inside a record, ends the whole
genome. -/
def process_unmasked_genome_lines (max_length : Nat) (max_chars : Option Nat) :
    List (List Char) → Nat → List (List Char)
  | [], _ => []
  | s :: rest, total =>
    let up := s.map Char.toUpper
    let r := pu_go max_length max_chars up.length up total
    if r.2.2 then r.1
    else r.1 ++ process_unmasked_genome_lines max_length max_chars rest r.2.1

/-! ## fasta_stats (0_Prepare_GenomeSizeFile.py lines 57-101,
   genome_size.py lines 86-129; both copies are identical) -/

/-- Summary record returned by `fasta_stats`. -/
structure FastaStats where
  sum_len : Nat
  num_seqs : Nat
  min_len : Nat
  max_len : Nat
  avg_len : ℤ
deriving DecidableEq

/-- Python 3 `round(q, 0)` followed by `int(...)`: round half to even. -/
def pyRound (q : ℚ) : ℤ :=
  if q - ⌊q⌋ < 1 / 2 then ⌊q⌋
  else if (1 : ℚ) / 2 < q - ⌊q⌋ then ⌊q⌋ + 1
  else if ⌊q⌋ % 2 = 0 then ⌊q⌋ else ⌊q⌋ + 1

/-- The running minimum of `fasta_stats`: `min_length = float('inf')` before
the first record (`none`), then the minimum of the lengths seen. -/
def minAcc (a : Option Nat) (l : Nat) : Option Nat :=
  match a with
  | none => some l
  | some m => some (min m l)

/-- `fasta_stats`, parameterised by the list of record lengths of the FASTA
file.  The fold mirrors the accumulation loop; `average_length =
int(round(total_bases / num_sequences, 0))` divides with no guard on
`num_sequences`, so an empty FASTA raises ZeroDivisionError.  (In the
returned record `min_len` uses `getD 0`; the `none` state is unreachable
because the division error fires first on empty input.) -/
def fasta_stats (lens : List Nat) : Except PyErr FastaStats :=
  let total := lens.sum
  let num := lens.length
  if num = 0 then .error .zeroDivisionError
  else
    .ok { sum_len := total
          num_seqs := num
          min_len := (lens.foldl minAcc none).getD 0
          max_len := lens.foldl (fun a l => max a l) 0
          avg_len := pyRound ((total : ℚ) / (num : ℚ)) }

/-! ## Tokenizer vocabulary construction
   (scr/3_generate_tokenizer_config.py, update_tokenizer_files lines 105-117) -/

/-- Python `v.startswith("<")`: the first character is `<`. -/
def startsWithLt (v : List Char) : Bool :=
  match v with
  | [] => false
  | c :: _ => c == '<'

/-- Insertion-ordered dictionary update, as for a Python `dict`: an existing
key keeps its position and gets the new value; a fresh key is appended.
Token keys are character lists. -/
def dictInsert : List (List Char × Nat) → List Char → Nat → List (List Char × Nat)
  | [], k, v => [(k, v)]
  | (k0, v0) :: rest, k, v =>
    if k0 = k then (k0, v) :: rest else (k0, v0) :: dictInsert rest k v

/-- Lookup in an insertion-ordered dictionary. -/
def dictLookup (d : List (List Char × Nat)) (k : List Char) : Option Nat :=
  match d with
  | [] => none
  | (k0, v0) :: rest => if k0 = k then some v0 else dictLookup rest k

/-- First loop (lines 107-112): tokens of the extracted vocab, in iteration
order, are entered with consecutive ids; tokens starting with `<` are
skipped. -/
def vocab_phase1 :
    List (List Char) → List (List Char × Nat) → Nat → List (List Char × Nat) × Nat
  | [], d, index => (d, index)
  | v :: rest, d, index =>
    if startsWithLt v then vocab_phase1 rest d index
    else vocab_phase1 rest (dictInsert d v index) (index + 1)

/-- Second loop (lines 114-115): `vocab_info[v] = i + index` for
`i, v in enumerate(special_token)`. -/
def vocab_phase2 :
    List (List Char) → List (List Char × Nat) → Nat → Nat → List (List Char × Nat)
  | [], d, _, _ => d
  | s :: rest, d, index, i => vocab_phase2 rest (dictInsert d s (i + index)) index (i + 1)

/-- The `vocab_info` dictionary built by `update_tokenizer_files`, as a
function of the extracted vocab keys and the special-token keys (both in
their JSON iteration order). -/
def update_vocab (vocab special : List (List Char)) : List (List Char × Nat) :=
  let p := vocab_phase1 vocab [] 0
  vocab_phase2 special p.1 p.2 0

/-- Tokens of `l` paired with consecutive ids starting at `start`, in order. -/
def withIds (start : Nat) (l : List (List Char)) : List (List Char × Nat) :=
  (l.enumFrom start).map (fun p => (p.2, p.1))

/-- The vocabulary C10 describes, written from the claim text (not from the
source): kept tokens (those not starting with `<`) get the consecutive ids
`0..k-1` in their original order, then the special tokens get `k, k+1, ...`
in enumeration order — ids contiguous, special tokens last. -/
def vocabSpec (vocab special : List (List Char)) : List (List Char × Nat) :=
  let kept := vocab.filter (fun v => !startsWithLt v)
  withIds 0 kept ++ withIds kept.length special

theorem stepLen_le {min_length max_length : Nat} (h : min_length ≤ max_length)
    (coin : Bool × Nat) : stepLen min_length max_length coin ≤ max_length := by
  unfold stepLen
  split
  · exact Nat.le_refl _
  · have hlt : coin.2 % (max_length - min_length + 1) < max_length - min_length + 1 :=
      Nat.mod_lt _ (Nat.succ_pos _)
    omega

theorem stepLen_pos {min_length max_length : Nat} (h1 : 1 ≤ min_length)
    (h2 : min_length ≤ max_length) (coin : Bool × Nat) :
    1 ≤ stepLen min_length max_length coin := by
  unfold stepLen
  split
  · omega
  · omega

theorem stepLen_lower {min_length max_length : Nat} (coin : Bool × Nat) :
    (coin.1 = false) → min_length ≤ stepLen min_length max_length coin := by
  intro hfalse
  unfold stepLen
  rw [hfalse]
  simp

/-- Every chunk produced by the splitter loop passes the acceptance test and is
no longer than `max_length`. -/
theorem split_go_sound (oracle : Nat → Bool × Nat) (min_length max_length : Nat)
    (hml : min_length ≤ max_length) :
    ∀ fuel i rest c, c ∈ split_go oracle min_length max_length fuel i rest →
      chunkAccept min_length c = true ∧ c.length ≤ max_length := by
  intro fuel
  induction fuel with
  | zero => intro i rest c hc; simp [split_go] at hc
  | succ n ih =>
    intro i rest c hc
    unfold split_go at hc
    by_cases hre : rest.isEmpty
    · simp [hre] at hc
    · simp only [hre, if_false] at hc
      set k := stepLen min_length max_length (oracle i) with hk
      by_cases hacc : chunkAccept min_length (rest.take k) = true
      · rw [if_pos hacc] at hc
        rcases List.mem_cons.mp hc with hEq | hMem
        · subst hEq
          refine ⟨hacc, ?_⟩
          calc (rest.take k).length ≤ k := by
                simp [List.length_take]
            _ ≤ max_length := stepLen_le hml _
        · exact ih (i + 1) (rest.drop k) c hMem
      · rw [if_neg hacc] at hc
        exact ih (i + 1) (rest.drop k) c hc

/-- Fuel irrelevance: as soon as `fuel` covers the length of the remaining
sequence, the splitter loop no longer depends on it — the loop really
terminates within `rest.length` iterations (each iteration consumes at least
one character when `1 ≤ min_length`). -/
theorem split_go_fuel_irrel (oracle : Nat → Bool × Nat) (min_length max_length : Nat)
    (h1 : 1 ≤ min_length) (h2 : min_length ≤ max_length) :
    ∀ n rest, rest.length = n → ∀ fuel i, n ≤ fuel →
      split_go oracle min_length max_length fuel i rest =
        split_go oracle min_length max_length n i rest := by
  intro n
  induction n using Nat.strong_induction_on with
  | _ n ih =>
    intro rest hlen fuel i hfuel
    match rest with
    | [] =>
      subst hlen
      match fuel with
      | 0 => rfl
      | fuel + 1 => simp [split_go]
    | c :: rs =>
      have hne : ((c :: rs : List Char).isEmpty) = false := rfl
      subst hlen
      match fuel, hfuel with
      | fuel + 1, hfuel =>
        set k := stepLen min_length max_length (oracle i) with hk
        have hkpos : 1 ≤ k := stepLen_pos h1 h2 _
        set rest' : List Char := (c :: rs).drop k with hrest'
        have hlt : rest'.length < (c :: rs).length := by
          rw [hrest', List.length_drop]
          simp only [List.length_cons]
          omega
        have e1 : split_go oracle min_length max_length (fuel + 1) i (c :: rs) =
            (if chunkAccept min_length ((c :: rs).take k) then
              ((c :: rs).take k) :: split_go oracle min_length max_length fuel (i + 1) rest'
            else split_go oracle min_length max_length fuel (i + 1) rest') := by
          conv_lhs => unfold split_go
          simp only [hne, Bool.false_eq_true, if_false, ← hk, ← hrest']
        have e2 : split_go oracle min_length max_length ((c :: rs).length) i (c :: rs) =
            (if chunkAccept min_length ((c :: rs).take k) then
              ((c :: rs).take k) ::
                split_go oracle min_length max_length rs.length (i + 1) rest'
            else split_go oracle min_length max_length rs.length (i + 1) rest') := by
          conv_lhs => simp only [List.length_cons]; unfold split_go
          simp only [hne, Bool.false_eq_true, if_false, ← hk, ← hrest']
        have hr1 : split_go oracle min_length max_length fuel (i + 1) rest' =
            split_go oracle min_length max_length rest'.length (i + 1) rest' := by
          refine ih rest'.length ?_ rest' rfl fuel (i + 1) ?_
          · exact hlt
          · simp only [List.length_cons] at hfuel hlt; omega
        have hr2 : split_go oracle min_length max_length rs.length (i + 1) rest' =
            split_go oracle min_length max_length rest'.length (i + 1) rest' := by
          refine ih rest'.length ?_ rest' rfl rs.length (i + 1) ?_
          · exact hlt
          · simp only [List.length_cons] at hlt; omega
        rw [e1, e2, hr1, hr2]

/-- The remaining suffix after `n` iterations is the original sequence with the
first `cursorAfter n` characters removed. -/
theorem restAfter_eq_drop (oracle : Nat → Bool × Nat) (min_length max_length : Nat)
    (sequence : List Char) :
    ∀ n, restAfter oracle min_length max_length sequence n =
      sequence.drop (cursorAfter oracle min_length max_length n) := by
  intro n
  induction n with
  | zero => rfl
  | succ m ih =>
    show (restAfter oracle min_length max_length sequence m).drop _ = _
    rw [ih, List.drop_drop]
    rfl

theorem cursorAfter_ge (oracle : Nat → Bool × Nat) (min_length max_length : Nat)
    (h1 : 1 ≤ min_length) (h2 : min_length ≤ max_length) :
    ∀ n, n ≤ cursorAfter oracle min_length max_length n := by
  intro n
  induction n with
  | zero => exact Nat.le_refl 0
  | succ m ih =>
    have := stepLen_pos h1 h2 (oracle m)
    show m + 1 ≤ cursorAfter oracle min_length max_length m +
      stepLen min_length max_length (oracle m)
    omega

theorem totalLen_append (a b : List (List Char)) :
    totalLen (a ++ b) = totalLen a + totalLen b := by
  simp [totalLen]

/-- A successful run of the sampling loop returns at least `total_len`
characters, and the running total was still below `total_len` just before the
final selected chunk was appended. -/
theorem sampleGo_ok_spec (seqlist : List (List Char)) (T : Nat) :
    ∀ rl used sl ol out, sampleGo seqlist T rl used sl ol = .ok out →
      sl = totalLen ol →
      (∀ init lastc, ol = init ++ [lastc] → totalLen init < T) →
      T ≤ totalLen out ∧ ∀ init lastc, out = init ++ [lastc] → totalLen init < T := by
  intro rl
  induction rl with
  | nil =>
    intro used sl ol out hok hsl hpre
    unfold sampleGo at hok
    by_cases hT : T ≤ sl
    · rw [if_pos hT] at hok
      cases hok
      exact ⟨hsl ▸ hT, hpre⟩
    · rw [if_neg hT] at hok
      cases hok
  | cons a rest ih =>
    intro used sl ol out hok hsl hpre
    unfold sampleGo at hok
    by_cases hT : T ≤ sl
    · rw [if_pos hT] at hok
      cases hok
      exact ⟨hsl ▸ hT, hpre⟩
    · rw [if_neg hT] at hok
      by_cases hu : a ∈ used
      · rw [if_pos hu] at hok
        exact ih used sl ol out hok hsl hpre
      · rw [if_neg hu] at hok
        refine ih (a :: used) _ _ out hok ?_ ?_
        · rw [totalLen_append, hsl]
          simp [totalLen]
        · intro init lastc hdecomp
          have hinj := List.append_inj' hdecomp (by simp)
          have hini : init = ol := hinj.1.symm
          rw [hini, ← hsl]
          omega

/-- Elements of a successful sample are drawn from the candidate list (or are
the out-of-range default `[]`, which never occurs for in-range indices). -/
theorem sampleGo_ok_mem (seqlist : List (List Char)) (T : Nat) :
    ∀ rl used sl ol out, sampleGo seqlist T rl used sl ol = .ok out →
      ∀ c ∈ out, c ∈ ol ∨ c ∈ seqlist ∨ c = [] := by
  intro rl
  induction rl with
  | nil =>
    intro used sl ol out hok c hc
    unfold sampleGo at hok
    by_cases hT : T ≤ sl
    · rw [if_pos hT] at hok; cases hok; exact Or.inl hc
    · rw [if_neg hT] at hok; cases hok
  | cons a rest ih =>
    intro used sl ol out hok c hc
    unfold sampleGo at hok
    by_cases hT : T ≤ sl
    · rw [if_pos hT] at hok; cases hok; exact Or.inl hc
    · rw [if_neg hT] at hok
      by_cases hu : a ∈ used
      · rw [if_pos hu] at hok
        exact ih used sl ol out hok c hc
      · rw [if_neg hu] at hok
        rcases ih _ _ _ out hok c hc with hin | hrest
        · rcases List.mem_append.mp hin with hin1 | hin2
          · exact Or.inl hin1
          · rcases List.mem_singleton.mp hin2 with rfl
            by_cases ha : a < seqlist.length
            · refine Or.inr (Or.inl ?_)
              rw [List.getD_eq_getElem seqlist [] ha]
              exact List.getElem_mem ha
            · refine Or.inr (Or.inr ?_)
              exact List.getD_eq_default seqlist [] (Nat.le_of_not_lt ha)
        · exact Or.inr hrest

/-- When the indices still to pop are fresh and their chunks cannot reach the
target, the loop pops everything and then raises IndexError. -/
theorem sampleGo_insufficient (seqlist : List (List Char)) (T : Nat) :
    ∀ rl used sl ol, rl.Nodup → (∀ b ∈ used, b ∉ rl) →
      sl + (rl.map (fun a => (seqlist.getD a []).length)).sum < T →
      sampleGo seqlist T rl used sl ol = .error .indexError := by
  intro rl
  induction rl with
  | nil =>
    intro used sl ol _ _ hlt
    unfold sampleGo
    rw [if_neg (by simp at hlt; omega)]
  | cons a rest ih =>
    intro used sl ol hnd hdisj hlt
    unfold sampleGo
    simp only [List.map_cons, List.sum_cons] at hlt
    rw [if_neg (by omega)]
    have ha : a ∉ used := fun h => (hdisj a h) (List.mem_cons_self a rest)
    rw [if_neg ha]
    refine ih (a :: used) _ _ (List.Nodup.of_cons hnd) ?_ (by omega)
    intro b hb
    rcases List.mem_cons.mp hb with rfl | hbu
    · exact (List.nodup_cons.mp hnd).1
    · intro hbr
      exact (hdisj b hbu) (List.mem_cons_of_mem a hbr)

/-- When the chunks still reachable can cover the target, the loop
succeeds. -/
theorem sampleGo_sufficient (seqlist : List (List Char)) (T : Nat) :
    ∀ rl used sl ol, rl.Nodup → (∀ b ∈ used, b ∉ rl) →
      T ≤ sl + (rl.map (fun a => (seqlist.getD a []).length)).sum →
      ∃ out, sampleGo seqlist T rl used sl ol = .ok out := by
  intro rl
  induction rl with
  | nil =>
    intro used sl ol _ _ hge
    simp only [List.map_nil, List.sum_nil, Nat.add_zero] at hge
    exact ⟨ol, by unfold sampleGo; rw [if_pos hge]⟩
  | cons a rest ih =>
    intro used sl ol hnd hdisj hge
    by_cases hT : T ≤ sl
    · exact ⟨ol, by unfold sampleGo; rw [if_pos hT]⟩
    · have ha : a ∉ used := fun h => (hdisj a h) (List.mem_cons_self a rest)
      simp only [List.map_cons, List.sum_cons] at hge
      have hdisj2 : ∀ b ∈ a :: used, b ∉ rest := by
        intro b hb
        rcases List.mem_cons.mp hb with rfl | hbu
        · exact (List.nodup_cons.mp hnd).1
        · intro hbr
          exact (hdisj b hbu) (List.mem_cons_of_mem a hbr)
      obtain ⟨out, hout⟩ := ih (a :: used)
        (sl + (seqlist.getD a []).length) (ol ++ [seqlist.getD a []])
        (List.Nodup.of_cons hnd) hdisj2 (by omega)
      refine ⟨out, ?_⟩
      unfold sampleGo
      rw [if_neg hT, if_neg ha]
      exact hout

/-- The candidate total over the index permutation equals the total length of
the candidate list. -/
theorem sum_getD_range (seqlist : List (List Char)) :
    ((List.range seqlist.length).map
      (fun a => (seqlist.getD a []).length)).sum = totalLen seqlist := by
  induction seqlist with
  | nil => rfl
  | cons c cs ih =>
    rw [List.length_cons, List.range_succ_eq_map]
    simp only [List.map_cons, List.map_map, List.sum_cons]
    have hcomp : ((fun a => ((c :: cs).getD a []).length) ∘ Nat.succ) =
        (fun a => (cs.getD a []).length) := by
      funext a
      rfl
    rw [hcomp, ih]
    simp [totalLen]

theorem sum_getD_perm (seqlist : List (List Char)) (rl : List Nat)
    (hperm : rl.Perm (List.range seqlist.length)) :
    (rl.map (fun a => (seqlist.getD a []).length)).sum = totalLen seqlist := by
  rw [List.Perm.sum_eq (List.Perm.map _ hperm)]
  exact sum_getD_range seqlist

/-- C1: for every input sequence and every pair (min_length, max_length) with
0 < min_length ≤ max_length, every chunk returned by `split_sequence` has
length between min_length and max_length inclusive, consists only of
characters from A, C, G, T, N, and has N-count / length at most 0.2
(equivalently 5 * count of N ≤ length). -/
theorem C1_splitter_chunk_bounds (oracle : Nat → Bool × Nat)
    (min_length max_length : Nat) (sequence : List Char)
    (_h1 : 0 < min_length) (h2 : min_length ≤ max_length) :
    ∀ c ∈ split_sequence oracle min_length max_length sequence,
      min_length ≤ c.length ∧ c.length ≤ max_length ∧
      (∀ ch ∈ c, isACGTN ch = true) ∧ 5 * c.count 'N' ≤ c.length := by
  intro c hc
  obtain ⟨hacc, hle⟩ :=
    split_go_sound oracle min_length max_length h2 sequence.length 0 sequence c hc
  simp only [chunkAccept, Bool.and_eq_true, decide_eq_true_eq,
    List.all_eq_true] at hacc
  exact ⟨hacc.1.1, hle, hacc.1.2, hacc.2⟩

theorem C1_witness :
    2 ≤ (['A', 'C', 'G'] : List Char).length ∧
      (['A', 'C', 'G'] : List Char).length ≤ 3 ∧
      (∀ ch ∈ (['A', 'C', 'G'] : List Char), isACGTN ch = true) ∧
      5 * (['A', 'C', 'G'] : List Char).count 'N' ≤
        (['A', 'C', 'G'] : List Char).length :=
  C1_splitter_chunk_bounds (fun _ => (true, 0)) 2 3 ['A', 'C', 'G', 'T', 'N']
    (by decide) (by decide) ['A', 'C', 'G'] (by decide)

/-- C8: the splitter loop terminates for 1 ≤ min_length ≤ max_length: each
iteration advances the cursor by max_length on a heads step and by a value in
[min_length, max_length] on a tails step — in all cases by at least 1 — so the
cursor reaches the end of the sequence within sequence.length iterations
(the unscanned suffix is then empty), and the fuel embedding of the loop is
independent of any fuel covering the sequence length. -/
theorem C8_splitter_terminates (oracle : Nat → Bool × Nat)
    (min_length max_length : Nat) (h1 : 1 ≤ min_length) (h2 : min_length ≤ max_length) :
    (∀ i, ((oracle i).1 = true →
            stepLen min_length max_length (oracle i) = max_length) ∧
          ((oracle i).1 = false →
            min_length ≤ stepLen min_length max_length (oracle i) ∧
              stepLen min_length max_length (oracle i) ≤ max_length) ∧
          1 ≤ stepLen min_length max_length (oracle i)) ∧
    (∀ n, n ≤ cursorAfter oracle min_length max_length n) ∧
    (∀ sequence : List Char,
        restAfter oracle min_length max_length sequence sequence.length = []) ∧
    (∀ (sequence : List Char) (fuel : Nat), sequence.length ≤ fuel →
        split_go oracle min_length max_length fuel 0 sequence =
          split_sequence oracle min_length max_length sequence) := by
  refine ⟨?_, cursorAfter_ge oracle _ _ h1 h2, ?_, ?_⟩
  · intro i
    refine ⟨?_, ?_, stepLen_pos h1 h2 _⟩
    · intro ht
      simp [stepLen, ht]
    · intro hf
      exact ⟨stepLen_lower _ hf, stepLen_le h2 _⟩
  · intro sequence
    rw [restAfter_eq_drop]
    exact List.drop_eq_nil_of_le (cursorAfter_ge oracle _ _ h1 h2 _)
  · intro sequence fuel hf
    exact split_go_fuel_irrel oracle _ _ h1 h2 sequence.length sequence rfl fuel 0 hf

theorem C8_witness :
    restAfter (fun _ => (false, 1)) 1 2 ['A', 'C', 'G'] 3 = [] ∧
      split_go (fun _ => (false, 1)) 1 2 7 0 ['A', 'C', 'G'] =
        split_sequence (fun _ => (false, 1)) 1 2 ['A', 'C', 'G'] :=
  ⟨(C8_splitter_terminates (fun _ => (false, 1)) 1 2 (by decide) (by decide)).2.2.1
      ['A', 'C', 'G'],
   (C8_splitter_terminates (fun _ => (false, 1)) 1 2 (by decide) (by decide)).2.2.2
      ['A', 'C', 'G'] 7 (by decide)⟩

/-- C2: the sampling loop fails loudly when the target exceeds the total
candidate length — after exhausting the shuffled permutation it raises
IndexError (pop from an empty list) — and it never silently under-delivers:
any successful run returns at least target characters.  (Termination is
structural: the loop consumes the finite permutation.) -/
theorem C2_sampler_fails_loudly (seqlist : List (List Char))
    (randomlist : List Nat) (target : Nat)
    (hperm : randomlist.Perm (List.range seqlist.length)) :
    (totalLen seqlist < target →
      sample seqlist randomlist target = .error .indexError) ∧
    (∀ out, sample seqlist randomlist target = .ok out → target ≤ totalLen out) := by
  constructor
  · intro hlt
    unfold sample
    refine sampleGo_insufficient seqlist target randomlist [] 0 [] ?_ ?_ ?_
    · exact (hperm.nodup_iff).mpr (List.nodup_range _)
    · simp
    · rw [sum_getD_perm seqlist randomlist hperm]
      omega
  · intro out hok
    refine (sampleGo_ok_spec seqlist target randomlist [] 0 [] out hok rfl ?_).1
    intro init lastc h
    exact absurd h.symm (by simp)

theorem C2_witness : sample [['A']] [0] 5 = Except.error PyErr.indexError :=
  (C2_sampler_fails_loudly [['A']] [0] 5 (by decide)).1 (by decide)

/-- C5: for every achievable target (target ≤ total candidate length, with the
shuffled permutation covering the candidates) the sampler succeeds, the
selected total is at least the target, and just before the final accepted
chunk the running total was still below the budget — equivalently the
overshoot is strictly less than the final chunk's length: the budget check
happens after acceptance. -/
theorem C5_sampler_overshoot (seqlist : List (List Char))
    (randomlist : List Nat) (target : Nat)
    (hperm : randomlist.Perm (List.range seqlist.length))
    (hach : target ≤ totalLen seqlist) :
    ∃ out, sample seqlist randomlist target = .ok out ∧
      target ≤ totalLen out ∧
      ∀ init lastc, out = init ++ [lastc] →
        totalLen init < target ∧ totalLen out < target + lastc.length := by
  obtain ⟨out, hout⟩ := sampleGo_sufficient seqlist target randomlist [] 0 []
    ((hperm.nodup_iff).mpr (List.nodup_range _)) (by simp)
    (by rw [sum_getD_perm seqlist randomlist hperm]; omega)
  obtain ⟨hge, hpre⟩ := sampleGo_ok_spec seqlist target randomlist [] 0 [] out hout rfl
    (by intro init lastc h; exact absurd h.symm (by simp))
  refine ⟨out, hout, hge, ?_⟩
  intro init lastc hdec
  have h1 := hpre init lastc hdec
  have h2 : totalLen out = totalLen init + lastc.length := by
    rw [hdec, totalLen_append]
    simp [totalLen]
  exact ⟨h1, by omega⟩

theorem C5_witness :
    sample [['A', 'C']] [0] 1 = Except.ok [['A', 'C']] ∧
      (1 : Nat) ≤ totalLen [['A', 'C']] := by
  obtain ⟨out, hok, hge, _⟩ :=
    C5_sampler_overshoot [['A', 'C']] [0] 1 (by decide) (by decide)
  have heval : sample [['A', 'C']] [0] 1 = Except.ok [['A', 'C']] := rfl
  rw [heval] at hok
  cases hok
  exact ⟨heval, hge⟩

/-- The byte budget `int(split_size / 2 * 1e6)` equals exactly
`split_size * 500000` for every integer `split_size`. -/
theorem max_genome_size_eq (split_size : ℤ) :
    ⌊(split_size : ℚ) / 2 * 1000000⌋ = split_size * 500000 := by
  have h : (split_size : ℚ) / 2 * 1000000 = ((split_size * 500000 : ℤ) : ℚ) := by
    push_cast
    ring
  rw [h, Int.floor_intCast]

/-- C3 counterexample: the packaged module's planner hard-codes the 250 MB
half-budget.  A `both` genome of 2000 MB with a masked file present (of any
size, e.g. 600 MB ≥ 1000 / 2) under `genome_split_size = 1000` draws a 250 MB
masked cap and a 250 MB unmasked cap — not the 500 MB that
`split_size_mb / 2` prescribes — so the claim fails for
`split_size_mb ≠ 500`. -/
theorem C3_counterexample :
    process_both_types_plan 2000 1000 true =
      ⟨some (.capMB 250), .capMB 250⟩ ∧ (250 : ℚ) ≠ (1000 : ℚ) / 2 := by
  constructor
  · rfl
  · norm_num

/-- C3 (amended): in the script planner `GenomeObj.judge_and_generate`, for
every genome whose unmasked size exceeds `split_size` and whose masked-derived
size is at least `split_size / 2`, both the masked and the unmasked draws are
budgeted at exactly `int(split_size / 2 * 1e6) = split_size * 500000` bytes,
i.e. `split_size / 2` MB (1 MB = 10^6 bytes), for every value of
`split_size`.  The packaged module `process_both_types` instead hard-codes
250 MB (see the counterexample). -/
theorem C3_script_half_budget (unMaskSizeMB m : ℚ) (split_size : ℤ)
    (hbig : ¬ unMaskSizeMB ≤ (split_size : ℚ))
    (hm : (split_size : ℚ) / 2 ≤ m) :
    judge_and_generate_plan unMaskSizeMB (.mb m) split_size =
      .ok ⟨some (.budget (split_size * 500000)),
           .budget (split_size * 500000)⟩ ∧
    ((split_size * 500000 : ℤ) : ℚ) = (split_size : ℚ) / 2 * 1000000 := by
  constructor
  · unfold judge_and_generate_plan
    rw [if_neg hbig]
    simp only [max_genome_size_eq, if_pos hm]
  · push_cast
    ring

theorem C3_witness :
    judge_and_generate_plan 1000 (.mb 300) 500 =
      .ok ⟨some (.budget ((500 : ℤ) * 500000)),
           .budget ((500 : ℤ) * 500000)⟩ ∧
    (((500 : ℤ) * 500000 : ℤ) : ℚ) = ((500 : ℤ) : ℚ) / 2 * 1000000 :=
  C3_script_half_budget 1000 300 500 (by norm_num) (by norm_num)

/-- C4: the claim fails on `GenomeObj.judge_and_generate`.  A genome with no
masked variant has `self.SplitMask_genome_size = 'none'` (a string), so as
soon as its unmasked size exceeds `split_size` the comparison
`'none' >= split_size / 2` raises a TypeError instead of yielding a result
with a zero masked draw: the planner crashes for every large unmasked-only
genome, both in the budget view and in the sequence-level model.  (The spec
and the packaged module `process_unmasked_only` agree the intent is a zero
masked draw; the script is the slip.) -/
theorem C4_no_mask_large_crashes (u : ℚ) (split : ℤ)
    (hbig : ¬ u ≤ (split : ℚ)) :
    judge_and_generate_plan u .noneStr split = .error .typeError ∧
    ∀ (maxLen : Nat) (oU oH : Nat → Nat → Bool × Nat)
      (seqs maskLines : List (List Char)) (rlH rlU : List Nat),
      judge_and_generate u .noneStr split maxLen oU oH seqs maskLines rlH rlU =
        .error .typeError := by
  constructor
  · unfold judge_and_generate_plan
    rw [if_neg hbig]
  · intro maxLen oU oH seqs maskLines rlH rlU
    unfold judge_and_generate
    rw [if_neg hbig]

theorem C4_witness :
    judge_and_generate_plan 1000 SplitMaskSize.noneStr 500 =
      Except.error PyErr.typeError :=
  (C4_no_mask_large_crashes 1000 500 (by norm_num)).1

/-- C9: on a FASTA input with zero sequence records, `fasta_stats` reaches
`int(round(total_bases / num_sequences, 0))` with `num_sequences = 0` and
raises ZeroDivisionError instead of returning a statistics record (both the
script copy and the packaged-module copy have the same unguarded division). -/
theorem C9_fasta_stats_empty :
    fasta_stats [] = Except.error PyErr.zeroDivisionError := rfl

/-- C6 counterexample: in the top-level script, a `both` genome whose
`*sp.txt` file cannot be resolved makes `GenomeObj.__init__` raise IndexError,
which `main` does not catch — the run aborts and the remaining genome `g2` is
never processed, instead of warn-and-skip-and-continue. -/
theorem C6_counterexample :
    script_main_loop [] []
        [(['g', '1'], ['b', 'o', 't', 'h']),
         (['g', '2'], ['u', 'n', 'm', 'a', 's', 'k', 'e', 'd'])] =
      Except.error PyErr.indexError := rfl

theorem process_unmasked_outcome_missing (dirFiles : List (List Char))
    (g : List Char) (h : find_genome_file dirFiles g = none) :
    process_unmasked_genome_outcome dirFiles g = .warnedMissing g := by
  unfold process_unmasked_genome_outcome
  rw [h]

/-- C6 (amended): the packaged module behaves as claimed — when a genome's
file cannot be resolved, `process_unmasked_genome` records a warning and
returns, and every other genome of the run (before and after it) is still
processed.  The top-level script instead aborts with an uncaught exception
(see the counterexample). -/
theorem C6_module_warns_and_continues (dirFiles : List (List Char))
    (gs1 gs2 : List (List Char)) (g : List Char)
    (hmiss : find_genome_file dirFiles g = none) :
    prepare_corpus_outcomes dirFiles (gs1 ++ g :: gs2) =
      prepare_corpus_outcomes dirFiles gs1 ++
        Outcome.warnedMissing g :: prepare_corpus_outcomes dirFiles gs2 := by
  unfold prepare_corpus_outcomes
  rw [List.map_append, List.map_cons,
    process_unmasked_outcome_missing dirFiles g hmiss]

/-- Accepted chunks of the splitter loop pass the acceptance test (no ordering
assumption on min/max needed for this part). -/
theorem split_go_accept (oracle : Nat → Bool × Nat) (min_length max_length : Nat) :
    ∀ fuel i rest c, c ∈ split_go oracle min_length max_length fuel i rest →
      chunkAccept min_length c = true := by
  intro fuel
  induction fuel with
  | zero => intro i rest c hc; simp [split_go] at hc
  | succ n ih =>
    intro i rest c hc
    unfold split_go at hc
    by_cases hre : rest.isEmpty
    · simp [hre] at hc
    · simp only [hre, if_false] at hc
      set k := stepLen min_length max_length (oracle i) with hk
      by_cases hacc : chunkAccept min_length (rest.take k) = true
      · rw [if_pos hacc] at hc
        rcases List.mem_cons.mp hc with hEq | hMem
        · subst hEq; exact hacc
        · exact ih (i + 1) (rest.drop k) c hMem
      · rw [if_neg hacc] at hc
        exact ih (i + 1) (rest.drop k) c hc

theorem chunkAccept_chars {min_length : Nat} {c : List Char}
    (h : chunkAccept min_length c = true) : ∀ ch ∈ c, isACGTN ch = true := by
  simp only [chunkAccept, Bool.and_eq_true, List.all_eq_true] at h
  exact h.1.2

theorem isACGTN_toUpper {ch : Char} (h : isACGTN ch = true) : ch.toUpper = ch := by
  simp only [isACGTN, Bool.or_eq_true, beq_iff_eq] at h
  rcases h with ((((rfl | rfl) | rfl) | rfl) | rfl) <;> decide

theorem get_all_HardMask_chars (oracle : Nat → Nat → Bool × Nat)
    (max_length : Nat) (fileLines : List (List Char)) :
    ∀ c ∈ get_all_HardMask oracle max_length fileLines,
      ∀ ch ∈ c, isACGTN ch = true := by
  intro c hc
  unfold get_all_HardMask at hc
  rw [List.mem_flatMap] at hc
  obtain ⟨p, _, hcp⟩ := hc
  exact chunkAccept_chars (split_go_accept (oracle p.1) 5 max_length _ 0 p.2 c hcp)

theorem get_all_UnMask_chars (oracle : Nat → Nat → Bool × Nat)
    (max_length : Nat) (seqs : List (List Char)) :
    ∀ c ∈ get_all_UnMask oracle max_length seqs, ∀ ch ∈ c, isACGTN ch = true := by
  intro c hc
  unfold get_all_UnMask at hc
  rw [List.mem_flatMap] at hc
  obtain ⟨p, _, hcp⟩ := hc
  exact chunkAccept_chars (split_go_accept (oracle p.1) 5 max_length _ 0 p.2 c hcp)

theorem sample_chars (seqlist : List (List Char)) (rl : List Nat) (T : Nat)
    (out : List (List Char)) (hok : sample seqlist rl T = .ok out)
    (hchars : ∀ c ∈ seqlist, ∀ ch ∈ c, isACGTN ch = true) :
    ∀ c ∈ out, ∀ ch ∈ c, isACGTN ch = true := by
  intro c hc ch hch
  rcases sampleGo_ok_mem seqlist T rl [] 0 [] out hok c hc with h0 | hs | he
  · simp at h0
  · exact hchars c hs ch hch
  · subst he; simp at hch

/-- C7 (amended): every line the top-level script writes to the corpus file —
whatever branch of `judge_and_generate` produced it — consists only of the
uppercase characters A, C, G, T, N.  The packaged module's writers apply no
alphabet filter (see the counterexample), so there only uppercasing holds. -/
theorem C7_script_lines_ACGTN (unMaskSizeMB : ℚ) (maskSize : SplitMaskSize)
    (split_size : ℤ) (max_length : Nat)
    (oracleU oracleH : Nat → Nat → Bool × Nat)
    (unmaskSeqs maskLines : List (List Char)) (rlH rlU : List Nat)
    (out : List (List Char))
    (hok : judge_and_generate unMaskSizeMB maskSize split_size max_length
      oracleU oracleH unmaskSeqs maskLines rlH rlU = .ok out) :
    ∀ line ∈ out, ∀ ch ∈ line, isACGTN ch = true ∧ ch.toUpper = ch := by
  suffices key : ∀ line ∈ out, ∀ ch ∈ line, isACGTN ch = true by
    intro line hl ch hch
    exact ⟨key line hl ch hch, isACGTN_toUpper (key line hl ch hch)⟩
  unfold judge_and_generate at hok
  by_cases hsmall : unMaskSizeMB ≤ (split_size : ℚ)
  · rw [if_pos hsmall] at hok
    cases hok
    exact get_all_UnMask_chars oracleU max_length unmaskSeqs
  · rw [if_neg hsmall] at hok
    cases maskSize with
    | noneStr => exact absurd hok (by simp)
    | mb m =>
      dsimp only at hok
      by_cases hm : (split_size : ℚ) / 2 ≤ m
      · rw [if_pos hm] at hok
        unfold get_SplitHardMask get_SplitUnMask at hok
        cases hH : sample (get_all_HardMask oracleH max_length maskLines) rlH
            (⌊(split_size : ℚ) / 2 * 1000000⌋).toNat with
        | error e => rw [hH] at hok; simp [Bind.bind, Except.bind] at hok
        | ok hms =>
          rw [hH] at hok
          cases hU : sample (get_all_UnMask oracleU max_length unmaskSeqs) rlU
              (⌊(split_size : ℚ) / 2 * 1000000⌋).toNat with
          | error e => rw [hU] at hok; simp [Bind.bind, Except.bind] at hok
          | ok ums =>
            rw [hU] at hok
            simp only [Bind.bind, Except.bind, Except.ok.injEq] at hok
            subst hok
            intro line hl
            rcases List.mem_append.mp hl with hl1 | hl2
            · exact sample_chars _ rlH _ hms hH
                (get_all_HardMask_chars oracleH max_length maskLines) line hl1
            · exact sample_chars _ rlU _ ums hU
                (get_all_UnMask_chars oracleU max_length unmaskSeqs) line hl2
      · rw [if_neg hm] at hok
        unfold get_SplitUnMask at hok
        cases hU : sample (get_all_UnMask oracleU max_length unmaskSeqs) rlU
            (⌊(split_size : ℚ) / 2 * 1000000⌋).toNat with
        | error e => rw [hU] at hok; simp [Bind.bind, Except.bind] at hok
        | ok ums =>
          rw [hU] at hok
          simp only [Bind.bind, Except.bind, Except.ok.injEq] at hok
          subst hok
          intro line hl
          rcases List.mem_append.mp hl with hl1 | hl2
          · exact get_all_HardMask_chars oracleH max_length maskLines line hl1
          · exact sample_chars _ rlU _ ums hU
              (get_all_UnMask_chars oracleU max_length unmaskSeqs) line hl2

theorem C7_witness : isACGTN 'A' = true ∧ Char.toUpper 'A' = 'A' :=
  C7_script_lines_ACGTN 1 .noneStr 500 4000 (fun _ _ => (true, 0))
    (fun _ _ => (true, 0)) [['A', 'C', 'G', 'T', 'A', 'C']] [] [] []
    [['A', 'C', 'G', 'T', 'A', 'C']] rfl ['A', 'C', 'G', 'T', 'A', 'C']
    (by decide) 'A' (by decide)

/-- C7 counterexample: `corpus_prep.process_unmasked_genome` applies no
alphabet filter.  A 100-character record containing the base `r` is
uppercased and written as a line containing `R`, which is outside
A, C, G, T, N — so the claim fails on the packaged module's corpus writer. -/
theorem C7_counterexample :
    ¬ ∀ line ∈ process_unmasked_genome_lines 4000 none
        ['r' :: List.replicate 99 'a'] 0,
        ∀ ch ∈ line, isACGTN ch = true := by
  decide

theorem C6_witness :
    prepare_corpus_outcomes [['x', '.', 'f', 'a']] ([['x']] ++ ['g'] :: []) =
      prepare_corpus_outcomes [['x', '.', 'f', 'a']] [['x']] ++
        Outcome.warnedMissing ['g'] ::
          prepare_corpus_outcomes [['x', '.', 'f', 'a']] [] :=
  C6_module_warns_and_continues [['x', '.', 'f', 'a']] [['x']] [] ['g'] (by decide)

theorem dictInsert_fresh (d : List (List Char × Nat)) (k : List Char) (v : Nat)
    (h : ∀ p ∈ d, p.1 ≠ k) : dictInsert d k v = d ++ [(k, v)] := by
  induction d with
  | nil => rfl
  | cons p rest ih =>
    obtain ⟨k0, v0⟩ := p
    unfold dictInsert
    rw [if_neg (h (k0, v0) (List.mem_cons_self _ _))]
    rw [ih (fun q hq => h q (List.mem_cons_of_mem _ hq))]
    rfl

theorem withIds_cons (start : Nat) (a : List Char) (l : List (List Char)) :
    withIds start (a :: l) = (a, start) :: withIds (start + 1) l := by
  simp [withIds, List.enumFrom_cons]

theorem withIds_keys :
    ∀ (l : List (List Char)) (n : Nat) (p : List Char × Nat),
      p ∈ withIds n l → p.1 ∈ l := by
  intro l
  induction l with
  | nil => intro n p hp; simp [withIds] at hp
  | cons a rest ih =>
    intro n p hp
    rw [withIds_cons] at hp
    rcases List.mem_cons.mp hp with rfl | hmem
    · exact List.mem_cons_self _ _
    · exact List.mem_cons_of_mem _ (ih (n + 1) p hmem)

/-- The first loop of `update_tokenizer_files` appends the kept vocab tokens
(fresh with respect to the dictionary built so far) with consecutive ids
starting at `index`. -/
theorem vocab_phase1_spec :
    ∀ (vocab : List (List Char)) (d : List (List Char × Nat)) (index : Nat),
      (∀ v ∈ vocab.filter (fun w => !startsWithLt w), ∀ p ∈ d, p.1 ≠ v) →
      (vocab.filter (fun w => !startsWithLt w)).Nodup →
      vocab_phase1 vocab d index =
        (d ++ withIds index (vocab.filter (fun w => !startsWithLt w)),
         index + (vocab.filter (fun w => !startsWithLt w)).length) := by
  intro vocab
  induction vocab with
  | nil => intro d index _ _; simp [vocab_phase1, withIds]
  | cons v rest ih =>
    intro d index hfresh hnd
    by_cases hlt : startsWithLt v
    · have hf : (v :: rest).filter (fun w => !startsWithLt w) =
          rest.filter (fun w => !startsWithLt w) := by
        simp [List.filter_cons, hlt]
      rw [hf] at hfresh hnd ⊢
      unfold vocab_phase1
      rw [if_pos hlt, ih d index hfresh hnd]
    · have hf : (v :: rest).filter (fun w => !startsWithLt w) =
          v :: rest.filter (fun w => !startsWithLt w) := by
        simp [List.filter_cons, hlt]
      rw [hf] at hfresh hnd ⊢
      have hvfresh : ∀ p ∈ d, p.1 ≠ v :=
        hfresh v (List.mem_cons_self _ _)
      have hnd2 := List.nodup_cons.mp hnd
      have hfresh2 : ∀ w ∈ rest.filter (fun w => !startsWithLt w),
          ∀ p ∈ d ++ [(v, index)], p.1 ≠ w := by
        intro w hw p hp
        rcases List.mem_append.mp hp with hpd | hpv
        · exact hfresh w (List.mem_cons_of_mem _ hw) p hpd
        · rcases List.mem_singleton.mp hpv with rfl
          intro hcontra
          have hvw : v = w := hcontra
          exact hnd2.1 (hvw ▸ hw)
      unfold vocab_phase1
      rw [if_neg hlt, dictInsert_fresh d v index hvfresh,
        ih (d ++ [(v, index)]) (index + 1) hfresh2 hnd2.2]
      rw [withIds_cons]
      simp only [Prod.mk.injEq, List.append_assoc, List.singleton_append,
        List.length_cons]
      exact ⟨trivial, by omega⟩

/-- The second loop of `update_tokenizer_files` appends the special tokens
(fresh with respect to the dictionary built so far) with consecutive ids
starting at `i + index`. -/
theorem vocab_phase2_spec :
    ∀ (special : List (List Char)) (d : List (List Char × Nat)) (index i : Nat),
      (∀ s ∈ special, ∀ p ∈ d, p.1 ≠ s) → special.Nodup →
      vocab_phase2 special d index i = d ++ withIds (i + index) special := by
  intro special
  induction special with
  | nil => intro d index i _ _; simp [vocab_phase2, withIds]
  | cons s rest ih =>
    intro d index i hfresh hnd
    have hnd2 := List.nodup_cons.mp hnd
    have hsfresh : ∀ p ∈ d, p.1 ≠ s := hfresh s (List.mem_cons_self _ _)
    have hfresh2 : ∀ w ∈ rest, ∀ p ∈ d ++ [(s, i + index)], p.1 ≠ w := by
      intro w hw p hp
      rcases List.mem_append.mp hp with hpd | hpv
      · exact hfresh w (List.mem_cons_of_mem _ hw) p hpd
      · rcases List.mem_singleton.mp hpv with rfl
        intro hcontra
        have hsw : s = w := hcontra
        exact hnd2.1 (hsw ▸ hw)
    unfold vocab_phase2
    rw [dictInsert_fresh d s (i + index) hsfresh,
      ih (d ++ [(s, i + index)]) index (i + 1) hfresh2 hnd2.2]
    rw [withIds_cons]
    have harith : i + 1 + index = i + index + 1 := by omega
    rw [harith]
    simp [List.append_assoc]

/-- C10 counterexample: a special token equal to a kept vocab token (here the
token X) overwrites its dictionary entry.  The resulting vocabulary maps X to
1 and assigns id 0 to no token at all — contradicting the claim that the
non-`<` tokens get consecutive ids 0..k-1 and that ids are contiguous. -/
theorem C10_counterexample :
    update_vocab [['X']] [['X']] = [(['X'], 1)] ∧
      update_vocab [['X']] [['X']] ≠ vocabSpec [['X']] [['X']] ∧
      dictLookup (update_vocab [['X']] [['X']]) ['X'] ≠ some 0 := by
  decide

/-- C10 (amended): provided the special tokens are pairwise distinct and none
of them equals a kept vocab token (e.g. when every special token starts with
`<`, as the defaults do), `update_tokenizer_files` builds exactly the claimed
vocabulary: kept tokens (in original iteration order, tokens starting with
`<` dropped) get consecutive ids 0..k-1, and the special tokens follow with
ids k, k+1, ... in enumeration order. -/
theorem C10_vocab_layout (vocab special : List (List Char))
    (hv : (vocab.filter (fun w => !startsWithLt w)).Nodup)
    (hs : special.Nodup)
    (hdisj : ∀ s ∈ special, s ∉ vocab.filter (fun w => !startsWithLt w)) :
    update_vocab vocab special = vocabSpec vocab special := by
  unfold update_vocab
  rw [vocab_phase1_spec vocab [] 0 (by simp) hv]
  dsimp only
  rw [vocab_phase2_spec special _ _ 0 ?_ hs]
  · unfold vocabSpec
    simp
  · intro s hsmem p hp
    rcases List.mem_append.mp hp with h0 | hw
    · simp at h0
    · exact fun hcontra => hdisj s hsmem (hcontra ▸ withIds_keys _ _ p hw)

theorem C10_witness :
    update_vocab [['A'], ['<', 'x', '>'], ['B']] [['<', 's', '>']] =
      vocabSpec [['A'], ['<', 'x', '>'], ['B']] [['<', 's', '>']] :=
  C10_vocab_layout [['A'], ['<', 'x', '>'], ['B']] [['<', 's', '>']]
    (by decide) (by decide) (by decide)

end Corpus2DNALLM
